import Mathlib

set_option maxHeartbeats 1000000

/-!
Shallow embedding of the point-in-time (PIT) layer of the GCS blob storage
backend (file repo/blob/gcs/gcs_pit.go and its version-listing companion).

Go time.Time is modelled as a natural number: the zero value of time.Time is 0,
t1.After t2 is t1 > t2, t1.Before t2 is t1 < t2, and t.IsZero is t = 0.
Go slices of version records are modelled as Lean lists; the callback-driven
enumerations are modelled as functions from the backend object stream (a list
of object attribute records) to the list of callback invocations made,
paired with the returned error (none = nil).
-/

/-- blob.Metadata: identifier, length and (creation) timestamp of one version. -/
structure Metadata where
  BlobID : String
  Length : Int
  Timestamp : Nat
  deriving Repr, DecidableEq, Inhabited

/-- versionMetadata: blob.Metadata plus versioning information, as in the source. -/
structure versionMetadata where
  Metadata : Metadata
  IsDeleteMarker : Bool
  Version : String
  deriving Repr, DecidableEq, Inhabited

/-- Promoted field of the embedded blob.Metadata (Go struct embedding). -/
def versionMetadata.Timestamp (v : versionMetadata) : Nat :=
  v.Metadata.Timestamp

/-- Promoted field of the embedded blob.Metadata (Go struct embedding). -/
def versionMetadata.BlobID (v : versionMetadata) : String :=
  v.Metadata.BlobID

/-- The Go zero value of versionMetadata, returned by the resolver when nothing
is found. -/
def zeroVM : versionMetadata :=
  { Metadata := { BlobID := "", Length := 0, Timestamp := 0 }
    IsDeleteMarker := false
    Version := "" }

/-- getOlderThan: scans vs from the front and truncates at the first record
whose Timestamp is After t (vs[:i]); otherwise returns the whole slice.  This
is the Go loop translated one-to-one. -/
def getOlderThan (vs : List versionMetadata) (t : Nat) : List versionMetadata :=
  match vs with
  | [] => []
  | v :: rest => if t < v.Timestamp then [] else v :: getOlderThan rest t

/-- newestAtUnlessDeleted: filters through getOlderThan, then returns the LAST
remaining record (vs[len(vs)-1]) together with found = not IsDeleteMarker;
returns the zero record and false on an empty remainder. -/
def newestAtUnlessDeleted (vs : List versionMetadata) (t : Nat) : versionMetadata × Bool :=
  match (getOlderThan vs t).getLast? with
  | none => (zeroVM, false)
  | some v => (v, !v.IsDeleteMarker)

/-- getOlderThan never keeps a record with Timestamp after t. -/
theorem pit_getOlderThan_le (vs : List versionMetadata) (t : Nat) :
    ∀ v ∈ getOlderThan vs t, v.Timestamp ≤ t := by
  induction vs with
  | nil => intro v hv; cases hv
  | cons a rest ih =>
    intro v hv
    by_cases h : t < a.Timestamp
    · simp [getOlderThan, h] at hv
    · simp only [getOlderThan, if_neg h] at hv
      rcases List.mem_cons.mp hv with rfl | hv2
      · omega
      · exact ih v hv2

/-- getOlderThan is a sublist filter: its elements come from vs. -/
theorem pit_getOlderThan_subset (vs : List versionMetadata) (t : Nat) :
    ∀ v ∈ getOlderThan vs t, v ∈ vs := by
  induction vs with
  | nil => intro v hv; cases hv
  | cons a rest ih =>
    intro v hv
    by_cases h : t < a.Timestamp
    · simp [getOlderThan, h] at hv
    · simp only [getOlderThan, if_neg h] at hv
      rcases List.mem_cons.mp hv with rfl | hv2
      · exact List.mem_cons_self _ _
      · exact List.mem_cons_of_mem _ (ih v hv2)

/-- getOlderThan is idempotent: filtering a second time changes nothing. -/
theorem pit_getOlderThan_idem (vs : List versionMetadata) (t : Nat) :
    getOlderThan (getOlderThan vs t) t = getOlderThan vs t := by
  induction vs with
  | nil => rfl
  | cons a rest ih =>
    by_cases h : t < a.Timestamp
    · simp [getOlderThan, h]
    · simp [getOlderThan, h, ih]

/-- Helper: getLast? of a cons with a nonempty tail is getLast? of the tail. -/
theorem pit_getLast_cons (a : versionMetadata) (l : List versionMetadata) (h : l ≠ []) :
    (a :: l).getLast? = l.getLast? := by
  cases l with
  | nil => exact absurd rfl h
  | cons b bs => rfl

/-- Under strictly ascending timestamp order, the last record kept by
getOlderThan is the unique record of maximum timestamp at or before T. -/
theorem pit_getOlderThan_getLast_max (vs : List versionMetadata) (T : Nat)
    (hs : vs.Pairwise (fun a b => a.Timestamp < b.Timestamp))
    (w : versionMetadata) (hw : w ∈ vs) (hwT : w.Timestamp ≤ T)
    (hmax : ∀ v ∈ vs, v.Timestamp ≤ T → v.Timestamp ≤ w.Timestamp) :
    (getOlderThan vs T).getLast? = some w := by
  induction vs with
  | nil => cases hw
  | cons a rest ih =>
    rw [List.pairwise_cons] at hs
    obtain ⟨ha, hrest⟩ := hs
    rcases List.mem_cons.mp hw with rfl | hwrest
    · have hnot : ¬ T < w.Timestamp := by omega
      simp only [getOlderThan, if_neg hnot]
      have hrestEmpty : getOlderThan rest T = [] := by
        cases hr : rest with
        | nil => rfl
        | cons b rest2 =>
          have hb : w.Timestamp < b.Timestamp := ha b (by simp [hr])
          have hbT : T < b.Timestamp := by
            by_contra hc
            have hle : b.Timestamp ≤ T := by omega
            have := hmax b (by simp [hr]) hle
            omega
          simp [getOlderThan, hbT]
      rw [hrestEmpty]
      rfl
    · have haw : a.Timestamp < w.Timestamp := ha w hwrest
      have haT : ¬ T < a.Timestamp := by omega
      simp only [getOlderThan, if_neg haT]
      have ihr := ih hrest hwrest
        (fun v hv hvT => hmax v (List.mem_cons_of_mem _ hv) hvT)
      have hne : getOlderThan rest T ≠ [] := by
        intro hnil
        rw [hnil] at ihr
        simp at ihr
      rw [pit_getLast_cons _ _ hne]
      exact ihr

/-- The error values that appear in the embedded code paths.  Wrapping with
errors.Wrapf is modelled by a constructor holding the context and the inner
error; callback errors (opaque Go errors supplied by the caller) are injected
with the cb constructor. -/
inductive GoErr where
  | cb (msg : String)
  | callbackFailedFor (name : String) (inner : GoErr)
  | couldNotListVersions (t : Nat) (inner : GoErr)
  | couldNotGetVersionMeta (b : String) (inner : GoErr)
  | blobNotFound
  | nonVersionedBucket (bucket : String)
  | attrsFailed (bucket : String) (msg : String)
  | readOnly
  deriving Repr, DecidableEq

/-- Is this error one of the wrapped (context-carrying) forms produced by
errors.Wrapf, as opposed to a bare error? -/
def GoErr.isWrap : GoErr → Bool
  | .callbackFailedFor _ _ => true
  | .couldNotListVersions _ _ => true
  | .couldNotGetVersionMeta _ _ => true
  | _ => false

/-- storage.ObjectAttrs fields read by the embedded code: object name, size,
creation time, deletion time (zero when never deleted or overwritten) and the
backend-assigned generation number. -/
structure ObjAttrs where
  Name : String
  Size : Int
  Created : Nat
  Deleted : Nat
  Generation : Int
  deriving Repr, DecidableEq, Inhabited

/-- The fields of gcsStorage / GCSStorageOptions used by the PIT layer:
bucket name, object-name namespace string (Options.Prefix) and the requested
point in time (Options.PointInTime, a nullable time). -/
structure gcsStorage where
  BucketName : String
  Pre : String
  PointInTime : Option Nat
  deriving Repr, DecidableEq, Inhabited

/-- getObjectNameString: namespace string concatenated with the blob ID. -/
def getObjectNameString (g : gcsStorage) (b : String) : String :=
  g.Pre ++ b

/-- gcsPointInTimeStorage embeds gcsStorage and fixes the point in time. -/
structure gcsPointInTimeStorage where
  gcsStorage : gcsStorage
  pointInTime : Nat
  deriving Repr, DecidableEq, Inhabited

/-- toBlobID: strings.TrimPrefix of the leading namespace string, written on
the character lists of the strings so that it evaluates by kernel reduction. -/
def toBlobID (blobName pre : String) : String :=
  if pre.data.isPrefixOf blobName.data then String.mk (blobName.data.drop pre.data.length)
  else blobName

/-- getVersionMetadata: builds the versionMetadata for one listed object.
IsDeleteMarker is derived from the Deleted time: nonzero and, when a point in
time is configured in the options, strictly before it. -/
def getVersionMetadata (g : gcsPointInTimeStorage) (qpre : String) (oi : ObjAttrs) :
    versionMetadata :=
  { Metadata := { BlobID := toBlobID oi.Name qpre, Length := oi.Size, Timestamp := oi.Created }
    IsDeleteMarker :=
      !(oi.Deleted == 0) &&
        (match g.gcsStorage.PointInTime with
         | none => true
         | some t => decide (oi.Deleted < t))
    Version := toString oi.Generation }

/-- The loop body of the list function: walks the backend object stream for a
query whose object-name string is qpre; with onlyMatching it stops (returning
nil) at the first object whose name is not exactly qpre; each surviving record
is handed to the callback, and a callback error aborts the walk wrapped as
callback failed for name.  The result is the list of records handed to the
callback together with the returned error. -/
def listLoop (g : gcsPointInTimeStorage) (qpre : String) (onlyMatching : Bool)
    (cbf : versionMetadata → Option GoErr) :
    List ObjAttrs → List versionMetadata × Option GoErr
  | [] => ([], none)
  | attrs :: rest =>
    if onlyMatching && !(attrs.Name == qpre) then ([], none)
    else
      let om := getVersionMetadata g qpre attrs
      match cbf om with
      | some e => ([om], some (GoErr.callbackFailedFor attrs.Name e))
      | none =>
        let p := listLoop g qpre onlyMatching cbf rest
        (om :: p.1, p.2)

/-- list: computes the query object-name string from the blob-ID argument and
runs the loop over the backend stream. -/
def listRun (g : gcsPointInTimeStorage) (b : String) (onlyMatching : Bool)
    (cbf : versionMetadata → Option GoErr) (stream : List ObjAttrs) :
    List versionMetadata × Option GoErr :=
  listLoop g (getObjectNameString g.gcsStorage b) onlyMatching cbf stream

/-- listBlobVersions: list with onlyMatching = false. -/
def listBlobVersionsRun (g : gcsPointInTimeStorage) (b : String)
    (cbf : versionMetadata → Option GoErr) (stream : List ObjAttrs) :
    List versionMetadata × Option GoErr :=
  listRun g b false cbf stream

/-- getBlobVersions: list with onlyMatching = true; foundBlobs is set exactly
when at least one record reached the callback, and a clean run with no such
record fails with ErrBlobNotFound. -/
def getBlobVersionsRun (g : gcsPointInTimeStorage) (b : String)
    (cbf : versionMetadata → Option GoErr) (stream : List ObjAttrs) :
    List versionMetadata × Option GoErr :=
  let p := listRun g b true cbf stream
  match p.2 with
  | some e => (p.1, some e)
  | none => if p.1.isEmpty then (p.1, some GoErr.blobNotFound) else (p.1, none)

/-- getMetadata: collects via getBlobVersions every version not After the
point in time (the callback never fails), wraps a lister error with the
could-not-get-version-metadata context, then resolves with
newestAtUnlessDeleted; found = false yields the bare ErrBlobNotFound. -/
def getMetadataRun (g : gcsPointInTimeStorage) (b : String) (stream : List ObjAttrs) :
    Except GoErr versionMetadata :=
  let p := getBlobVersionsRun g b (fun _ => none) stream
  match p.2 with
  | some e => Except.error (GoErr.couldNotGetVersionMeta b e)
  | none =>
    let vml := p.1.filter (fun m => decide (m.Timestamp ≤ g.pointInTime))
    let r := newestAtUnlessDeleted vml g.pointInTime
    if r.2 then Except.ok r.1 else Except.error GoErr.blobNotFound

/-- GetMetadata: the public method, projecting the embedded blob.Metadata. -/
def GetMetadataRun (g : gcsPointInTimeStorage) (b : String) (stream : List ObjAttrs) :
    Except GoErr Metadata :=
  match getMetadataRun g b stream with
  | Except.ok v => Except.ok v.Metadata
  | Except.error e => Except.error e

/-- The loop of ListBlobs: drives listBlobVersions (onlyMatching = false, so
no early stop and the versions of the stream are grouped by change of BlobID
against previousID), resolving each finished group with newestAtUnlessDeleted
and invoking the caller callback on the winner.  A callback error raised at a
group boundary travels through list (wrapped as callback failed for name) and
through ListBlobs (wrapped as could not list blob versions at time t); the
callback error for the final group is returned unwrapped.  The result is the
list of caller-callback invocations and the returned error. -/
def listBlobsGo (g : gcsPointInTimeStorage) (qpre : String) (cbf : Metadata → Option GoErr)
    (prev : String) (vs : List versionMetadata) :
    List ObjAttrs → List Metadata × Option GoErr
  | [] =>
    let r := newestAtUnlessDeleted vs g.pointInTime
    if r.2 then
      match cbf r.1.Metadata with
      | some e => ([r.1.Metadata], some e)
      | none => ([r.1.Metadata], none)
    else ([], none)
  | attrs :: rest =>
    let om := getVersionMetadata g qpre attrs
    if om.BlobID = prev then
      listBlobsGo g qpre cbf prev (vs ++ [om]) rest
    else
      let r := newestAtUnlessDeleted vs g.pointInTime
      if r.2 then
        match cbf r.1.Metadata with
        | some e =>
          ([r.1.Metadata],
            some (GoErr.couldNotListVersions g.pointInTime
              (GoErr.callbackFailedFor attrs.Name e)))
        | none =>
          let p := listBlobsGo g qpre cbf om.BlobID [om] rest
          (r.1.Metadata :: p.1, p.2)
      else listBlobsGo g qpre cbf om.BlobID [om] rest

/-- ListBlobs: starts the grouping loop with the zero-valued previousID and an
empty accumulated group. -/
def listBlobsRun (g : gcsPointInTimeStorage) (b : String) (cbf : Metadata → Option GoErr)
    (stream : List ObjAttrs) : List Metadata × Option GoErr :=
  listBlobsGo g (getObjectNameString g.gcsStorage b) cbf "" [] stream

/-- The boolean bucket attribute read by maybePointInTimeStore. -/
structure BucketAttrs where
  VersioningEnabled : Bool
  deriving Repr, DecidableEq, Inhabited

/-- The two possible successful results of maybePointInTimeStore: the live
backend unchanged, or the PIT decorator wrapped read-only.  Modelled from the
spec: readonly.NewWrapper (package repo/blob/readonly, not under src/) is
represented by the readOnlyPIT constructor, recording that the decorator is
returned behind the read-only guard. -/
inductive MaybePITResult where
  | base (g : gcsStorage)
  | readOnlyPIT (p : gcsPointInTimeStorage)
  deriving Repr, DecidableEq

/-- maybePointInTimeStore: returns the backend unchanged when
Options.PointInTime is nil or zero; otherwise reads the bucket attributes
(their retrieval result is a parameter), fails naming the bucket when the
attributes cannot be read or when versioning is disabled, and otherwise
returns the decorator wrapped read-only.  The Go function also receives the
point in time as a separate pointer argument that it dereferences for the
construction; at its call site that pointer is Options.PointInTime itself, so
the embedding uses the single option value for both reads. -/
def maybePointInTimeStore (g : gcsStorage) (attrsRes : Except String BucketAttrs) :
    Except GoErr MaybePITResult :=
  match g.PointInTime with
  | none => Except.ok (MaybePITResult.base g)
  | some pit =>
    if pit = 0 then Except.ok (MaybePITResult.base g)
    else
      match attrsRes with
      | Except.error e => Except.error (GoErr.attrsFailed g.BucketName e)
      | Except.ok attrs =>
        if attrs.VersioningEnabled then
          Except.ok (MaybePITResult.readOnlyPIT { gcsStorage := g, pointInTime := pit })
        else Except.error (GoErr.nonVersionedBucket g.BucketName)

/-- Abstract state of the live backend together with the log of mutating
operations that actually reached it. -/
structure BackendState where
  objects : List (String × Int)
  putCalls : List (String × Int)
  deleteCalls : List String
  deriving Repr, DecidableEq, Inhabited

/-- A Put executed on the live backend: records the object and logs the call. -/
def backendPut (st : BackendState) (id : String) (d : Int) : BackendState :=
  { st with objects := (id, d) :: st.objects, putCalls := (id, d) :: st.putCalls }

/-- A Delete executed on the live backend: drops the object and logs the call. -/
def backendDelete (st : BackendState) (id : String) : BackendState :=
  { st with objects := st.objects.filter (fun o => !(o.1 == id)),
            deleteCalls := id :: st.deleteCalls }

/-- Modelled from the spec: readonly.NewWrapper (package repo/blob/readonly,
not under src/) wraps the PIT decorator and rejects every mutating call with
an error before it reaches the wrapped storage; Put through the guard fails
and performs no backend operation. -/
def roWrapperPut (st : BackendState) (id : String) (d : Int) :
    (Except GoErr Unit) × BackendState :=
  (Except.error GoErr.readOnly, st)

/-- Modelled from the spec: Delete through the read-only guard fails and
performs no backend operation. -/
def roWrapperDelete (st : BackendState) (id : String) :
    (Except GoErr Unit) × BackendState :=
  (Except.error GoErr.readOnly, st)

/-- The call-level view of newestAtUnlessDeleted: the Go function receives a
slice header; it only re-slices and reads, never writing an element, so the
caller observes its slice unchanged.  The model returns the result together
with the state of the argument slice after the call. -/
def newestAtUnlessDeletedCall (vs : List versionMetadata) (t : Nat) :
    (versionMetadata × Bool) × List versionMetadata :=
  (newestAtUnlessDeleted vs t, vs)

/-- Sample record: create version of blob x at time 10, not a delete marker. -/
def vmT10 : versionMetadata :=
  { Metadata := { BlobID := "x", Length := 1, Timestamp := 10 }
    IsDeleteMarker := false
    Version := "1" }

/-- Sample record: overwrite version of blob x at time 20, not a delete marker. -/
def vmT20 : versionMetadata :=
  { Metadata := { BlobID := "x", Length := 2, Timestamp := 20 }
    IsDeleteMarker := false
    Version := "2" }

/-- C1: the claim as stated is false on the code: on the descending-by-
timestamp sequence [t=20, t=10] with horizon T = 25, both records are at or
before T and the maximum timestamp is 20, yet the resolver returns the t=10
record (it takes the LAST element of the kept slice, which under descending
order is the oldest eligible record, not the newest). -/
theorem C1_counterexample :
    ([vmT20, vmT10].Pairwise (fun a b => b.Timestamp < a.Timestamp)) ∧
    vmT20.Timestamp ≤ 25 ∧ vmT10.Timestamp < vmT20.Timestamp ∧
    newestAtUnlessDeleted [vmT20, vmT10] 25 = (vmT10, true) := by
  refine ⟨?_, by decide, by decide, by decide⟩
  decide

/-- C1 (amended): for every sequence of version records sorted in strictly
ascending timestamp order and every horizon T, newestAtUnlessDeleted over
getOlderThan returns the record of maximum timestamp at or before T together
with found = true exactly when that record is not a delete marker, and it
returns the zero record with found = false when no record is at or before T. -/
theorem C1_amended_resolver_ascending (vs : List versionMetadata) (T : Nat)
    (hs : vs.Pairwise (fun a b => a.Timestamp < b.Timestamp)) :
    ((∀ v ∈ vs, T < v.Timestamp) → newestAtUnlessDeleted vs T = (zeroVM, false)) ∧
    (∀ w ∈ vs, w.Timestamp ≤ T →
      (∀ v ∈ vs, v.Timestamp ≤ T → v.Timestamp ≤ w.Timestamp) →
      newestAtUnlessDeleted vs T = (w, !w.IsDeleteMarker)) := by
  constructor
  · intro hall
    have hempty : getOlderThan vs T = [] := by
      cases vs with
      | nil => rfl
      | cons a rest =>
        have := hall a (List.mem_cons_self a rest)
        simp [getOlderThan, this]
    simp [newestAtUnlessDeleted, hempty]
  · intro w hw hwT hmax
    have hlast := pit_getOlderThan_getLast_max vs T hs w hw hwT hmax
    simp only [newestAtUnlessDeleted]
    rw [hlast]

/-- C1 witness: on the ascending sequence [t=10, t=20] with horizon T = 15 the
maximum eligible record is the t=10 one, and the resolver returns it found. -/
theorem C1_witness :
    ([vmT10, vmT20].Pairwise (fun a b => a.Timestamp < b.Timestamp)) ∧
    newestAtUnlessDeleted [vmT10, vmT20] 15 = (vmT10, !vmT10.IsDeleteMarker) :=
  ⟨by decide,
   (C1_amended_resolver_ascending [vmT10, vmT20] 15 (by decide)).2 vmT10
     (by decide) (by decide) (by decide)⟩

/-- C8: the resolver is pure and deterministic: the call returns its argument
slice unchanged, a second call on the returned slice yields the identical
(value, found) pair, and resolving the already-filtered slice again changes
nothing (getOlderThan is idempotent). -/
theorem C8_resolver_pure (vs : List versionMetadata) (t : Nat) :
    newestAtUnlessDeletedCall vs t = (newestAtUnlessDeleted vs t, vs) ∧
    (newestAtUnlessDeletedCall (newestAtUnlessDeletedCall vs t).2 t).1
      = (newestAtUnlessDeletedCall vs t).1 ∧
    newestAtUnlessDeleted (getOlderThan vs t) t = newestAtUnlessDeleted vs t := by
  refine ⟨rfl, rfl, ?_⟩
  simp only [newestAtUnlessDeleted, pit_getOlderThan_idem]

/-- C9: the constructed version record is a delete marker exactly when the
listed object has a nonzero Deleted time and either no point in time is
configured in the options or the Deleted time is strictly before it; a
deletion at or after the configured point in time is not a delete marker. -/
theorem C9_delete_marker_iff (g : gcsPointInTimeStorage) (qpre : String) (oi : ObjAttrs) :
    (getVersionMetadata g qpre oi).IsDeleteMarker = true ↔
      (oi.Deleted ≠ 0 ∧
        (g.gcsStorage.PointInTime = none ∨
          ∃ t, g.gcsStorage.PointInTime = some t ∧ oi.Deleted < t)) := by
  unfold getVersionMetadata
  cases h : g.gcsStorage.PointInTime with
  | none => simp [h]
  | some t => simp [h]

/-- C9 witness: an object deleted at time 30 under a configured point in time
of 50 is constructed as a delete marker. -/
theorem C9_witness :
    (getVersionMetadata
      { gcsStorage := { BucketName := "b", Pre := "p", PointInTime := some 50 }
        pointInTime := 50 } "p"
      { Name := "px", Size := 1, Created := 10, Deleted := 30, Generation := 7 }).IsDeleteMarker
      = true :=
  (C9_delete_marker_iff
      { gcsStorage := { BucketName := "b", Pre := "p", PointInTime := some 50 }
        pointInTime := 50 } "p"
      { Name := "px", Size := 1, Created := 10, Deleted := 30, Generation := 7 }).mpr
    ⟨by decide, Or.inr ⟨50, rfl, by decide⟩⟩

/-- C10: on an empty version enumeration, ListBlobs succeeds without invoking
the callback, while getBlobVersions fails with ErrBlobNotFound. -/
theorem C10_empty_enumeration (g : gcsPointInTimeStorage) (pr b : String)
    (cbL : Metadata → Option GoErr) (cbV : versionMetadata → Option GoErr) :
    listBlobsRun g pr cbL [] = ([], none) ∧
    getBlobVersionsRun g b cbV [] = ([], some GoErr.blobNotFound) :=
  ⟨rfl, rfl⟩

/-- C6: every mutating call through the read-only guard of a PIT view fails
with the read-only error, performs no backend operation (the call logs are
unchanged) and leaves the backend objects unchanged. -/
theorem C6_readonly_rejects_mutation (st : BackendState) (id : String) (d : Int) :
    roWrapperPut st id d = (Except.error GoErr.readOnly, st) ∧
    roWrapperDelete st id = (Except.error GoErr.readOnly, st) ∧
    (roWrapperPut st id d).2.putCalls = st.putCalls ∧
    (roWrapperDelete st id).2.deleteCalls = st.deleteCalls ∧
    (roWrapperPut st id d).2.objects = st.objects ∧
    (roWrapperDelete st id).2.objects = st.objects :=
  ⟨rfl, rfl, rfl, rfl, rfl, rfl⟩

/-- C5: maybePointInTimeStore returns the live backend unchanged when the
requested point in time is nil or zero; with a nonzero point in time and
readable bucket attributes it fails with an error naming the bucket when
versioning is disabled, and otherwise returns the decorator wrapped
read-only. -/
theorem C5_maybePointInTimeStore (g : gcsStorage) (attrsRes : Except String BucketAttrs) :
    (g.PointInTime = none →
      maybePointInTimeStore g attrsRes = Except.ok (MaybePITResult.base g)) ∧
    (g.PointInTime = some 0 →
      maybePointInTimeStore g attrsRes = Except.ok (MaybePITResult.base g)) ∧
    (∀ t a, g.PointInTime = some t → t ≠ 0 → attrsRes = Except.ok a →
      a.VersioningEnabled = false →
      maybePointInTimeStore g attrsRes
        = Except.error (GoErr.nonVersionedBucket g.BucketName)) ∧
    (∀ t a, g.PointInTime = some t → t ≠ 0 → attrsRes = Except.ok a →
      a.VersioningEnabled = true →
      maybePointInTimeStore g attrsRes
        = Except.ok (MaybePITResult.readOnlyPIT { gcsStorage := g, pointInTime := t })) := by
  refine ⟨?_, ?_, ?_, ?_⟩
  · intro h; simp [maybePointInTimeStore, h]
  · intro h; simp [maybePointInTimeStore, h]
  · intro t a ht htz ha hv
    simp [maybePointInTimeStore, ht, htz, ha, hv]
  · intro t a ht htz ha hv
    simp [maybePointInTimeStore, ht, htz, ha, hv]

/-- C5 witness: a nonzero point in time on a bucket whose versioning is
disabled fails with the configuration error naming the bucket. -/
theorem C5_witness :
    maybePointInTimeStore { BucketName := "bucket", Pre := "p", PointInTime := some 5 }
      (Except.ok { VersioningEnabled := false })
      = Except.error (GoErr.nonVersionedBucket "bucket") :=
  (C5_maybePointInTimeStore { BucketName := "bucket", Pre := "p", PointInTime := some 5 }
      (Except.ok { VersioningEnabled := false })).2.2.1 5
    { VersioningEnabled := false } rfl (by decide) rfl rfl

/-- Decidable equality for Except results, for concrete evaluations. -/
instance exceptDecEq {e a : Type} [DecidableEq e] [DecidableEq a] :
    DecidableEq (Except e a) := fun x y =>
  match x, y with
  | Except.ok u, Except.ok v =>
    if h : u = v then isTrue (by rw [h]) else isFalse (by intro hc; cases hc; exact h rfl)
  | Except.error u, Except.error v =>
    if h : u = v then isTrue (by rw [h]) else isFalse (by intro hc; cases hc; exact h rfl)
  | Except.ok _, Except.error _ => isFalse (by intro hc; cases hc)
  | Except.error _, Except.ok _ => isFalse (by intro hc; cases hc)

/-- A PIT decorator over bucket b with namespace string p and point in time T
(the options carry the same nonzero T the decorator was constructed with). -/
def pitAt (T : Nat) : gcsPointInTimeStorage :=
  { gcsStorage := { BucketName := "b", Pre := "p", PointInTime := some T }
    pointInTime := T }

/-- Backend object: the create generation of blob x, created at t = 10. -/
def attrsCr : ObjAttrs :=
  { Name := "px", Size := 1, Created := 10, Deleted := 0, Generation := 1 }

/-- Backend object: the overwrite generation of blob x, created at t = 20. -/
def attrsOw : ObjAttrs :=
  { Name := "px", Size := 2, Created := 20, Deleted := 0, Generation := 2 }

/-- Backend object: the delete-marker generation of blob x at t = 30 (its
Deleted time 30 makes it a delete marker for every later point in time). -/
def attrsDel : ObjAttrs :=
  { Name := "px", Size := 0, Created := 30, Deleted := 30, Generation := 3 }

/-- C2: the claim as stated is false on the code: feeding GetMetadata the
version history of blob x in DESCENDING timestamp order (delete t=30,
overwrite t=20, create t=10), the call at T = 25 returns the t=10 version
rather than the claimed t=20 version, and the call at T = 35 succeeds with the
t=10 version rather than failing with NotFound (the resolver takes the last
element of the kept slice, the oldest eligible record under this order). -/
theorem C2_counterexample :
    GetMetadataRun (pitAt 25) "x" [attrsDel, attrsOw, attrsCr]
      = Except.ok { BlobID := "", Length := 1, Timestamp := 10 } ∧
    GetMetadataRun (pitAt 35) "x" [attrsDel, attrsOw, attrsCr]
      = Except.ok { BlobID := "", Length := 1, Timestamp := 10 } := by
  exact ⟨by decide, by decide⟩

/-- C2 (amended): with the version history of blob x enumerated in ASCENDING
timestamp order (create t=10, overwrite t=20, delete marker t=30), GetMetadata
returns the t=20 version at T = 25 and fails with ErrBlobNotFound at T = 35
(the winner is the delete marker) and at T = 5 (no version at or before T). -/
theorem C2_amended_scenarioA :
    GetMetadataRun (pitAt 25) "x" [attrsCr, attrsOw, attrsDel]
      = Except.ok { BlobID := "", Length := 2, Timestamp := 20 } ∧
    GetMetadataRun (pitAt 35) "x" [attrsCr, attrsOw, attrsDel]
      = Except.error GoErr.blobNotFound ∧
    GetMetadataRun (pitAt 5) "x" [attrsCr, attrsOw, attrsDel]
      = Except.error GoErr.blobNotFound := by
  exact ⟨by decide, by decide, by decide⟩

/-- C3: over a prefix listing whose upstream version stream is blob a1 with a
single non-deleted version followed by blob a2 with a version and then a
delete-marker version, all at or before the point in time, ListBlobs invokes
the callback exactly once, for a1 only, in upstream encounter order. -/
theorem C3_listBlobs_delete_masking (g : gcsPointInTimeStorage) (b : String)
    (cbf : Metadata → Option GoErr) (a1 a2 a3 : ObjAttrs)
    (om1 om2 om3 : versionMetadata)
    (hom1 : getVersionMetadata g (getObjectNameString g.gcsStorage b) a1 = om1)
    (hom2 : getVersionMetadata g (getObjectNameString g.gcsStorage b) a2 = om2)
    (hom3 : getVersionMetadata g (getObjectNameString g.gcsStorage b) a3 = om3)
    (hid1 : om1.BlobID ≠ "")
    (hid2 : om2.BlobID ≠ om1.BlobID)
    (hid3 : om3.BlobID = om2.BlobID)
    (ht1 : om1.Timestamp ≤ g.pointInTime)
    (ht2 : om2.Timestamp ≤ g.pointInTime)
    (ht3 : om3.Timestamp ≤ g.pointInTime)
    (hm1 : om1.IsDeleteMarker = false)
    (hm3 : om3.IsDeleteMarker = true)
    (hcb : cbf om1.Metadata = none) :
    listBlobsRun g b cbf [a1, a2, a3] = ([om1.Metadata], none) := by
  have hn1 : newestAtUnlessDeleted [om1] g.pointInTime = (om1, true) := by
    have h1 : ¬ g.pointInTime < om1.Timestamp := by omega
    simp [newestAtUnlessDeleted, getOlderThan, h1, hm1]
  have hn23 : newestAtUnlessDeleted [om2, om3] g.pointInTime = (om3, false) := by
    have h2 : ¬ g.pointInTime < om2.Timestamp := by omega
    have h3 : ¬ g.pointInTime < om3.Timestamp := by omega
    simp [newestAtUnlessDeleted, getOlderThan, h2, h3, hm3]
  have hstep0 : newestAtUnlessDeleted [] g.pointInTime = (zeroVM, false) := rfl
  unfold listBlobsRun
  simp only [listBlobsGo, hom1, hom2, hom3, hid3, hstep0, hn1, hcb,
    if_neg hid1, if_neg hid2, if_pos rfl, List.cons_append, List.nil_append]
  rw [hn23]
  simp

/-- Backend object: the only generation of blob a1, created at t = 10. -/
def attrsA1 : ObjAttrs :=
  { Name := "pa1", Size := 1, Created := 10, Deleted := 0, Generation := 1 }

/-- Backend object: the first generation of blob a2, created at t = 20. -/
def attrsA2c : ObjAttrs :=
  { Name := "pa2", Size := 1, Created := 20, Deleted := 0, Generation := 2 }

/-- Backend object: the delete-marker generation of blob a2 at t = 25. -/
def attrsA2d : ObjAttrs :=
  { Name := "pa2", Size := 0, Created := 25, Deleted := 30, Generation := 3 }

/-- C3 witness: at point in time 100, listing the a prefix over a1 (one live
version) and a2 (version then delete marker) invokes the callback once, for
a1 only. -/
theorem C3_witness :
    listBlobsRun (pitAt 100) "a" (fun _ => none) [attrsA1, attrsA2c, attrsA2d]
      = ([{ BlobID := "1", Length := 1, Timestamp := 10 }], none) :=
  C3_listBlobs_delete_masking (pitAt 100) "a" (fun _ => none) attrsA1 attrsA2c attrsA2d
    { Metadata := { BlobID := "1", Length := 1, Timestamp := 10 }
      IsDeleteMarker := false, Version := "1" }
    { Metadata := { BlobID := "2", Length := 1, Timestamp := 20 }
      IsDeleteMarker := false, Version := "2" }
    { Metadata := { BlobID := "2", Length := 0, Timestamp := 25 }
      IsDeleteMarker := true, Version := "3" }
    (by decide) (by decide) (by decide) (by decide) (by decide) (by decide)
    (by decide) (by decide) (by decide) (by decide) (by decide) rfl

/-- Every run of the list loop either completes cleanly with no failing
callback invocation, or ends at its unique failing invocation with the
callback error wrapped in the callback-failed-for context. -/
theorem pit_listLoop_cases (g : gcsPointInTimeStorage) (qp : String) (onlyM : Bool)
    (cbf : versionMetadata → Option GoErr) (stream : List ObjAttrs) :
    ((∀ om ∈ (listLoop g qp onlyM cbf stream).1, cbf om = none) ∧
      (listLoop g qp onlyM cbf stream).2 = none) ∨
    (∃ outs0 om e nm,
      (listLoop g qp onlyM cbf stream).1 = outs0 ++ [om] ∧
      (∀ o ∈ outs0, cbf o = none) ∧ cbf om = some e ∧
      (listLoop g qp onlyM cbf stream).2 = some (GoErr.callbackFailedFor nm e)) := by
  induction stream with
  | nil =>
    left
    refine ⟨?_, rfl⟩
    intro om h
    cases h
  | cons a rest ih =>
    cases hcond : (onlyM && !(a.Name == qp)) with
    | true =>
      left
      simp [listLoop, hcond]
    | false =>
      cases hcb : cbf (getVersionMetadata g qp a) with
      | some e =>
        right
        refine ⟨[], getVersionMetadata g qp a, e, a.Name, ?_, ?_, hcb, ?_⟩
        · simp [listLoop, hcond, hcb]
        · intro o ho
          cases ho
        · simp [listLoop, hcond, hcb]
      | none =>
        rcases ih with ⟨hall, hnone⟩ | ⟨outs0, om, e, nm, h1, h2, h3, h4⟩
        · left
          constructor
          · intro om hom
            simp only [listLoop, hcond, Bool.false_eq_true, if_false, hcb] at hom
            rcases List.mem_cons.mp hom with rfl | homr
            · exact hcb
            · exact hall om homr
          · simp [listLoop, hcond, hcb, hnone]
        · right
          refine ⟨getVersionMetadata g qp a :: outs0, om, e, nm, ?_, ?_, h3, ?_⟩
          · simp [listLoop, hcond, hcb, h1]
          · intro o ho
            rcases List.mem_cons.mp ho with rfl | hor
            · exact hcb
            · exact h2 o hor
          · simp [listLoop, hcond, hcb, h4]

/-- The list loop only fails through the callback-failed-for wrap. -/
theorem pit_listLoop_err (g : gcsPointInTimeStorage) (qp : String) (onlyM : Bool)
    (cbf : versionMetadata → Option GoErr) (stream : List ObjAttrs) :
    (listLoop g qp onlyM cbf stream).2 = none ∨
    ∃ nm e, (listLoop g qp onlyM cbf stream).2 = some (GoErr.callbackFailedFor nm e) := by
  rcases pit_listLoop_cases g qp onlyM cbf stream with ⟨_, h⟩ | ⟨_, _, e, nm, _, _, _, h⟩
  · exact Or.inl h
  · exact Or.inr ⟨nm, e, h⟩

/-- With onlyMatching, every record handed to the callback comes from a stream
entry whose full object name equals the query name exactly. -/
theorem pit_listLoop_exact (g : gcsPointInTimeStorage) (qp : String)
    (cbf : versionMetadata → Option GoErr) (stream : List ObjAttrs) :
    ∀ om ∈ (listLoop g qp true cbf stream).1,
      ∃ a ∈ stream, a.Name = qp ∧ om = getVersionMetadata g qp a := by
  induction stream with
  | nil => intro om h; cases h
  | cons a rest ih =>
    intro om hom
    cases hname : (a.Name == qp) with
    | false =>
      simp [listLoop, hname] at hom
    | true =>
      have hq : a.Name = qp := by
        exact beq_iff_eq.mp hname
      cases hcb : cbf (getVersionMetadata g qp a) with
      | some e =>
        simp only [listLoop, hname, Bool.not_true, Bool.and_false, Bool.false_eq_true,
          if_false, hcb] at hom
        rcases List.mem_singleton.mp hom with rfl
        exact ⟨a, List.mem_cons_self a rest, hq, rfl⟩
      | none =>
        simp only [listLoop, hname, Bool.not_true, Bool.and_false, Bool.false_eq_true,
          if_false, hcb] at hom
        rcases List.mem_cons.mp hom with rfl | homr
        · exact ⟨a, List.mem_cons_self a rest, hq, rfl⟩
        · rcases ih om homr with ⟨a2, ha2, hn2, he2⟩
          exact ⟨a2, List.mem_cons_of_mem _ ha2, hn2, he2⟩

/-- The records of getBlobVersions are those of the underlying list run. -/
theorem pit_getBlobVersions_fst (g : gcsPointInTimeStorage) (b : String)
    (cbf : versionMetadata → Option GoErr) (stream : List ObjAttrs) :
    (getBlobVersionsRun g b cbf stream).1 = (listRun g b true cbf stream).1 := by
  unfold getBlobVersionsRun
  cases h : (listRun g b true cbf stream).2 with
  | none =>
    cases h2 : (listRun g b true cbf stream).1.isEmpty <;> simp [h, h2]
  | some e => simp [h]

/-- getBlobVersions fails with ErrBlobNotFound exactly when no record at all
reached the callback of the underlying list run. -/
theorem pit_getBlobVersions_notFound_iff (g : gcsPointInTimeStorage) (b : String)
    (cbf : versionMetadata → Option GoErr) (stream : List ObjAttrs) :
    ((getBlobVersionsRun g b cbf stream).2 = some GoErr.blobNotFound ↔
      (listRun g b true cbf stream).1 = []) := by
  unfold getBlobVersionsRun
  rcases pit_listLoop_cases g (getObjectNameString g.gcsStorage b) true cbf stream with
    ⟨hall, hnone⟩ | ⟨outs0, om, e, nm, h1, h2, h3, h4⟩
  · have hnone2 : (listRun g b true cbf stream).2 = none := hnone
    by_cases he : (listRun g b true cbf stream).1 = []
    · simp [hnone2, he]
    · have : (listRun g b true cbf stream).1.isEmpty = false := by
        cases hl : (listRun g b true cbf stream).1 with
        | nil => exact absurd hl he
        | cons x xs => simp
      simp [hnone2, this, he]
  · have h42 : (listRun g b true cbf stream).2 = some (GoErr.callbackFailedFor nm e) := h4
    have h12 : (listRun g b true cbf stream).1 = outs0 ++ [om] := h1
    simp [h42, h12]

/-- A stream headed by an exact-name object always hands its first record to
the callback: the run of records is nonempty. -/
theorem pit_listLoop_cons_match (g : gcsPointInTimeStorage) (qp : String)
    (cbf : versionMetadata → Option GoErr) (a : ObjAttrs) (rest : List ObjAttrs)
    (h : a.Name = qp) :
    (listLoop g qp true cbf (a :: rest)).1 ≠ [] := by
  cases hcb : cbf (getVersionMetadata g qp a) <;> simp [listLoop, h, hcb]

/-- A stream whose entries all have a different name is exhausted without any
callback invocation and without error. -/
theorem pit_listLoop_none_match (g : gcsPointInTimeStorage) (qp : String)
    (cbf : versionMetadata → Option GoErr) (stream : List ObjAttrs)
    (h : ∀ a ∈ stream, a.Name ≠ qp) :
    listLoop g qp true cbf stream = ([], none) := by
  cases stream with
  | nil => rfl
  | cons a rest =>
    have ha : a.Name ≠ qp := h a (List.mem_cons_self a rest)
    have : (a.Name == qp) = false := beq_eq_false_iff_ne.mpr ha
    simp [listLoop, this]

/-- C4: every record yielded by getBlobVersions comes from a backend entry
whose full object name equals the queried object name exactly; and, provided
the backend enumeration lists all exact-name entries before any other entry
(as a name-ordered listing does), the call fails with ErrBlobNotFound exactly
when the enumeration holds no object of that exact name. -/
theorem C4_getBlobVersions_exact_name (g : gcsPointInTimeStorage) (b : String)
    (cbf : versionMetadata → Option GoErr) (stream : List ObjAttrs) :
    (∀ om ∈ (getBlobVersionsRun g b cbf stream).1,
      ∃ a ∈ stream, a.Name = getObjectNameString g.gcsStorage b ∧
        om = getVersionMetadata g (getObjectNameString g.gcsStorage b) a) ∧
    ((∃ ms rs, stream = ms ++ rs ∧
        (∀ a ∈ ms, a.Name = getObjectNameString g.gcsStorage b) ∧
        (∀ a ∈ rs, a.Name ≠ getObjectNameString g.gcsStorage b)) →
      ((getBlobVersionsRun g b cbf stream).2 = some GoErr.blobNotFound ↔
        ∀ a ∈ stream, a.Name ≠ getObjectNameString g.gcsStorage b)) := by
  constructor
  · intro om hom
    rw [pit_getBlobVersions_fst] at hom
    exact pit_listLoop_exact g (getObjectNameString g.gcsStorage b) cbf stream om hom
  · rintro ⟨ms, rs, rfl, hms, hrs⟩
    rw [pit_getBlobVersions_notFound_iff]
    constructor
    · intro hemp a ha hname
      rcases List.mem_append.mp ha with hams | hars
      · cases hm : ms with
        | nil => rw [hm] at hams; cases hams
        | cons m ms2 =>
          have hmname : m.Name = getObjectNameString g.gcsStorage b :=
            hms m (by rw [hm]; exact List.mem_cons_self m ms2)
          have : (listLoop g (getObjectNameString g.gcsStorage b) true cbf
              (m :: (ms2 ++ rs))).1 ≠ [] :=
            pit_listLoop_cons_match g _ cbf m (ms2 ++ rs) hmname
          rw [hm] at hemp
          exact this hemp
      · exact hrs a hars hname
    · intro hnone
      have hms0 : ms = [] := by
        cases hm : ms with
        | nil => rfl
        | cons m ms2 =>
          have h1 : m.Name = getObjectNameString g.gcsStorage b :=
            hms m (by rw [hm]; exact List.mem_cons_self m ms2)
          have h2 : m.Name ≠ getObjectNameString g.gcsStorage b :=
            hnone m (by rw [hm]; simp)
          exact absurd h1 h2
      subst hms0
      have : listLoop g (getObjectNameString g.gcsStorage b) true cbf ([] ++ rs)
          = ([], none) := by
        simp only [List.nil_append]
        exact pit_listLoop_none_match g _ cbf rs hrs
      have h1 : (listRun g b true cbf ([] ++ rs)).1 = ([] : List versionMetadata) := by
        unfold listRun
        rw [this]
      exact h1

/-- C4 witness: for blob x over a one-entry stream holding an exact-name
generation, the NotFound condition is equivalent to the absence of exact-name
entries (and both sides are false here). -/
theorem C4_witness :
    (getBlobVersionsRun (pitAt 100) "x" (fun _ => none) [attrsCr]).2
        = some GoErr.blobNotFound ↔
      ∀ a ∈ [attrsCr], a.Name ≠ getObjectNameString (pitAt 100).gcsStorage "x" :=
  (C4_getBlobVersions_exact_name (pitAt 100) "x" (fun _ => none) [attrsCr]).2
    ⟨[attrsCr], [], by simp, by decide, by decide⟩

/-- Every run of the ListBlobs grouping loop either completes cleanly with no
failing callback invocation, or ends at its unique failing invocation; the
returned error is then the bare callback error (final group) or the callback
error wrapped in the list and ListBlobs contexts (group boundary). -/
theorem pit_listBlobsGo_cases (g : gcsPointInTimeStorage) (qp : String)
    (cbf : Metadata → Option GoErr) (stream : List ObjAttrs) :
    ∀ (prev : String) (vs : List versionMetadata),
    ((∀ m ∈ (listBlobsGo g qp cbf prev vs stream).1, cbf m = none) ∧
      (listBlobsGo g qp cbf prev vs stream).2 = none) ∨
    (∃ outs0 m e,
      (listBlobsGo g qp cbf prev vs stream).1 = outs0 ++ [m] ∧
      (∀ o ∈ outs0, cbf o = none) ∧ cbf m = some e ∧
      ((listBlobsGo g qp cbf prev vs stream).2 = some e ∨
        ∃ nm, (listBlobsGo g qp cbf prev vs stream).2
          = some (GoErr.couldNotListVersions g.pointInTime
              (GoErr.callbackFailedFor nm e)))) := by
  induction stream with
  | nil =>
    intro prev vs
    cases hr2 : (newestAtUnlessDeleted vs g.pointInTime).2 with
    | false =>
      left
      simp [listBlobsGo, hr2]
    | true =>
      cases hcb : cbf (newestAtUnlessDeleted vs g.pointInTime).1.Metadata with
      | none =>
        left
        constructor
        · intro m hm
          simp only [listBlobsGo, hr2, if_true, hcb] at hm
          rcases List.mem_singleton.mp hm with rfl
          exact hcb
        · simp [listBlobsGo, hr2, hcb]
      | some e =>
        right
        refine ⟨[], (newestAtUnlessDeleted vs g.pointInTime).1.Metadata, e, ?_, ?_, hcb, ?_⟩
        · simp [listBlobsGo, hr2, hcb]
        · intro o ho
          cases ho
        · left
          simp [listBlobsGo, hr2, hcb]
  | cons a rest ih =>
    intro prev vs
    by_cases hbid : (getVersionMetadata g qp a).BlobID = prev
    · have := ih prev (vs ++ [getVersionMetadata g qp a])
      simpa [listBlobsGo, hbid] using this
    · cases hr2 : (newestAtUnlessDeleted vs g.pointInTime).2 with
      | false =>
        have := ih (getVersionMetadata g qp a).BlobID [getVersionMetadata g qp a]
        simpa [listBlobsGo, hbid, hr2] using this
      | true =>
        cases hcb : cbf (newestAtUnlessDeleted vs g.pointInTime).1.Metadata with
        | some e =>
          right
          refine ⟨[], (newestAtUnlessDeleted vs g.pointInTime).1.Metadata, e,
            ?_, ?_, hcb, ?_⟩
          · simp [listBlobsGo, hbid, hr2, hcb]
          · intro o ho
            cases ho
          · right
            refine ⟨a.Name, ?_⟩
            simp [listBlobsGo, hbid, hr2, hcb]
        | none =>
          rcases ih (getVersionMetadata g qp a).BlobID [getVersionMetadata g qp a] with
            ⟨hall, hnone⟩ | ⟨outs0, m, e, h1, h2, h3, h4⟩
          · left
            constructor
            · intro m hm
              simp only [listBlobsGo, hbid, hr2, if_true, if_neg hbid, hcb] at hm
              rcases List.mem_cons.mp hm with rfl | hmr
              · exact hcb
              · exact hall m hmr
            · simp [listBlobsGo, hbid, hr2, hcb, hnone]
          · right
            refine ⟨(newestAtUnlessDeleted vs g.pointInTime).1.Metadata :: outs0, m, e,
              ?_, ?_, h3, ?_⟩
            · simp [listBlobsGo, hbid, hr2, hcb, h1]
            · intro o ho
              rcases List.mem_cons.mp ho with rfl | hor
              · exact hcb
              · exact h2 o hor
            · rcases h4 with h4 | ⟨nm, h4⟩
              · left
                simp [listBlobsGo, hbid, hr2, hcb, h4]
              · right
                refine ⟨nm, ?_⟩
                simp [listBlobsGo, hbid, hr2, hcb, h4]

/-- C7: the claim as stated is false on the code: on this concrete one-blob
stream the caller callback of ListBlobs fails and the error returned is the
bare callback error, without any enumeration-context wrap. -/
theorem C7_counterexample :
    listBlobsRun (pitAt 100) "a" (fun _ => some (GoErr.cb "boom")) [attrsA1]
      = ([{ BlobID := "1", Length := 1, Timestamp := 10 }], some (GoErr.cb "boom")) ∧
    GoErr.isWrap (GoErr.cb "boom") = false := by
  exact ⟨by decide, rfl⟩

/-- C7 (amended): a failing caller callback aborts every enumeration at its
unique failing invocation and the call returns an error, never success over a
partial invocation set; for the list-driven enumerations (listBlobVersions,
getBlobVersions) the error is the callback error wrapped with the enumeration
context, while for ListBlobs it is either that wrapped error or the bare
callback error; a clean run has no failing invocation (getBlobVersions may
then still fail with ErrBlobNotFound on an empty run). -/
theorem C7_amended_callback_abort (g : gcsPointInTimeStorage) (b : String)
    (cbv : versionMetadata → Option GoErr) (cbm : Metadata → Option GoErr)
    (stream : List ObjAttrs) :
    (((∀ om ∈ (listBlobVersionsRun g b cbv stream).1, cbv om = none) ∧
        (listBlobVersionsRun g b cbv stream).2 = none) ∨
      (∃ outs0 om e nm,
        (listBlobVersionsRun g b cbv stream).1 = outs0 ++ [om] ∧
        (∀ o ∈ outs0, cbv o = none) ∧ cbv om = some e ∧
        (listBlobVersionsRun g b cbv stream).2
          = some (GoErr.callbackFailedFor nm e))) ∧
    (((∀ om ∈ (getBlobVersionsRun g b cbv stream).1, cbv om = none) ∧
        ((getBlobVersionsRun g b cbv stream).2 = none ∨
          (getBlobVersionsRun g b cbv stream).2 = some GoErr.blobNotFound)) ∨
      (∃ outs0 om e nm,
        (getBlobVersionsRun g b cbv stream).1 = outs0 ++ [om] ∧
        (∀ o ∈ outs0, cbv o = none) ∧ cbv om = some e ∧
        (getBlobVersionsRun g b cbv stream).2
          = some (GoErr.callbackFailedFor nm e))) ∧
    (((∀ m ∈ (listBlobsRun g b cbm stream).1, cbm m = none) ∧
        (listBlobsRun g b cbm stream).2 = none) ∨
      (∃ outs0 m e,
        (listBlobsRun g b cbm stream).1 = outs0 ++ [m] ∧
        (∀ o ∈ outs0, cbm o = none) ∧ cbm m = some e ∧
        ((listBlobsRun g b cbm stream).2 = some e ∨
          ∃ nm, (listBlobsRun g b cbm stream).2
            = some (GoErr.couldNotListVersions g.pointInTime
                (GoErr.callbackFailedFor nm e))))) := by
  refine ⟨?_, ?_, ?_⟩
  · exact pit_listLoop_cases g (getObjectNameString g.gcsStorage b) false cbv stream
  · rcases pit_listLoop_cases g (getObjectNameString g.gcsStorage b) true cbv stream with
      ⟨hall, hnone⟩ | ⟨outs0, om, e, nm, h1, h2, h3, h4⟩
    · left
      constructor
      · intro om hom
        rw [pit_getBlobVersions_fst] at hom
        exact hall om hom
      · have hnone2 : (listRun g b true cbv stream).2 = none := hnone
        unfold getBlobVersionsRun
        simp only [hnone2]
        cases h2 : (listRun g b true cbv stream).1.isEmpty <;> simp [h2]
    · right
      refine ⟨outs0, om, e, nm, ?_, h2, h3, ?_⟩
      · rw [pit_getBlobVersions_fst]
        exact h1
      · have h42 : (listRun g b true cbv stream).2
            = some (GoErr.callbackFailedFor nm e) := h4
        unfold getBlobVersionsRun
        simp only [h42]
  · exact pit_listBlobsGo_cases g (getObjectNameString g.gcsStorage b) cbm stream "" []

/-- C7 witness: on a concrete one-blob stream with a never-failing callback,
the amended characterization yields a clean ListBlobs run. -/
theorem C7_witness :
    (listBlobsRun (pitAt 100) "a" (fun _ => none) [attrsA1]).2 = none := by
  rcases (C7_amended_callback_abort (pitAt 100) "a" (fun _ => none) (fun _ => none)
      [attrsA1]).2.2 with ⟨_, h⟩ | ⟨outs0, m, e, h1, h2, h3, h4⟩
  · exact h
  · simp at h3
